import Mathlib

/-!
Verification development for the go-corelibs/diff repository.

The Go sources (diff.go, render.go, render-batch.go) are shallowly embedded
below.  Pure Go functions become Lean functions; the mutable `Diff` receiver
methods become functions `Diff → ... → Diff × result`; Go `map[int]struct{}`
becomes `Finset Int`; Go panics (out-of-range slice indexing) are modelled by
an `Option` result, with `none` standing for the fault.  External collaborators
(myers.ComputeEdits, gotextdiff.ToUnified, diffmatchpatch.DiffMain) are taken
as function parameters, since the repository treats them as black boxes.
-/

namespace GoDiff

/-! ## Data model (diff.go)

`Pos`/`Span` embed the gotextdiff span positions: each edit carries a span
over the source text whose `End` line drives the grouping algorithm in
`Diff.init`.  Go `int` values are embedded as `Int`. -/

structure Pos where
  line : Int
  col : Int
  deriving Repr, DecidableEq

structure Span where
  Start : Pos
  End : Pos
  deriving Repr, DecidableEq

structure TextEdit where
  Span : Span
  NewText : String
  deriving Repr, DecidableEq

/-- A default `TextEdit`, used only as the `getD` filler for list lookups that
the Go code performs after an explicit bounds check. -/
def dummyEdit : TextEdit := { Span := { Start := ⟨0, 0⟩, End := ⟨0, 0⟩ }, NewText := "" }

/-- The `Diff` aggregate of diff.go: `keep` embeds Go's `map[int]struct{}`
as a finite set of `Int` indices. -/
structure Diff where
  path : String
  source : String
  changed : String
  edits : List TextEdit
  keep : Finset Int
  groups : List (List Nat)
  deriving DecidableEq

/-! ## Grouping (Diff.init, diff.go lines 49-74)

`buildGroups` is the loop body of `init`: it walks the edit end-lines in
order carrying `previousLine` (initially `-1`, the Go sentinel), the current
accumulating `group` and the finished `groups`; `idx` is the running edit
index.  After the loop the trailing non-empty group is flushed. -/

def buildGroups (prev : Int) (group : List Nat) (groups : List (List Nat))
    (idx : Nat) : List Int → List (List Nat)
  | [] => if 0 < group.length then groups ++ [group] else groups
  | thisLine :: rest =>
    if prev = -1 then
      buildGroups thisLine (group ++ [idx]) groups (idx + 1) rest
    else if thisLine = prev ∨ thisLine = prev + 1 then
      buildGroups thisLine (group ++ [idx]) groups (idx + 1) rest
    else
      buildGroups thisLine [idx] (groups ++ [group]) (idx + 1) rest

/-- `computeGroups` runs the `init` grouping pass over the list of edit
end-lines (`edit.Span.End().Line()` for each edit, in order). -/
def computeGroups (lines : List Int) : List (List Nat) :=
  buildGroups (-1) [] [] 0 lines

/-- `New` (diff.go): constructs a `Diff` from the supplied path/source/changed
strings.  The myers edit computation is an external collaborator, passed in as
`computeEdits`; `init` then derives the groups from the edit end-lines. -/
def New (computeEdits : String → String → String → List TextEdit)
    (path source changed : String) : Diff :=
  let edits := computeEdits path source changed
  { path := path, source := source, changed := changed, edits := edits,
    keep := ∅, groups := computeGroups (edits.map fun e => e.Span.End.line) }

/-! ## Path labels and simple counts -/

/-- First character of a string (the Go code only evaluates `s[0]` after
checking `s` non-empty, so the default is never observable there). -/
def firstChar (s : String) : Char := s.data.headD ' '

/-- `abPaths` (diff.go lines 76-85): builds the `a`/`b` labels for the unified
diff header, inserting the `/` separator only when the path is non-empty and
does not already begin with `/`. -/
def abPaths (path : String) : String × String :=
  if path ≠ "" ∧ firstChar path ≠ '/' then
    (("a" ++ "/") ++ path, ("b" ++ "/") ++ path)
  else
    ("a" ++ path, "b" ++ path)

/-- `Len` (diff.go): the total number of edits, as a Go `int`. -/
def Len (d : Diff) : Int := d.edits.length

/-- `KeepLen` (diff.go): the number of kept edit indices. -/
def KeepLen (d : Diff) : Int := d.keep.card

/-- `EditGroupsLen` (diff.go): the number of edit groups. -/
def EditGroupsLen (d : Diff) : Int := d.groups.length

/-- `Unified` (diff.go lines 88-92): formats all edits via the external
`gotextdiff.ToUnified` collaborator `toU`.  The Go signature declares an
`error` result but never assigns it; the second component embeds that
`error` value (`none` = nil). -/
def Unified (toU : String → String → String → List TextEdit → String)
    (d : Diff) : String × Option String :=
  let ab := abPaths d.path
  (toU ab.1 ab.2 d.source d.edits, none)

/-! ## Selection operations -/

/-- `KeepEdit` (diff.go lines 118-126): inserts a valid index into `keep`
and reports validity; out-of-range indices leave the Diff untouched. -/
def KeepEdit (d : Diff) (index : Int) : Diff × Bool :=
  if 0 < d.edits.length ∧ 0 ≤ index ∧ index < (d.edits.length : Int) then
    ({ d with keep := insert index d.keep }, true)
  else
    (d, false)

/-- `SkipEdit` (diff.go lines 135-142): for an in-range index the returned
`ok` is the *membership* test `_, ok = d.keep[index]`, after which the index
is deleted; out-of-range indices leave the Diff untouched and report false. -/
def SkipEdit (d : Diff) (index : Int) : Diff × Bool :=
  if 0 < d.edits.length ∧ 0 ≤ index ∧ index < (d.edits.length : Int) then
    if index ∈ d.keep then ({ d with keep := d.keep.erase index }, true)
    else (d, false)
  else
    (d, false)

/-- `GetEdit` (diff.go lines 217-222): returns the replacement text of a
valid edit index together with the validity boolean. -/
def GetEdit (d : Diff) (index : Int) : String × Bool :=
  if 0 ≤ index ∧ index < Len d then
    ((d.edits.getD index.toNat dummyEdit).NewText, true)
  else
    ("", false)

/-- In-place update of the `NewText` field of the `n`-th edit
(the `d.edits[index].NewText = text` assignment of `SetEdit`). -/
def setNewText : List TextEdit → Nat → String → List TextEdit
  | [], _, _ => []
  | e :: es, 0, t => { e with NewText := t } :: es
  | e :: es, n + 1, t => e :: setNewText es n t

/-- `SetEdit` (diff.go lines 225-230): replaces the text of a valid edit
index and reports validity. -/
def SetEdit (d : Diff) (index : Int) (text : String) : Diff × Bool :=
  if 0 ≤ index ∧ index < Len d then
    ({ d with edits := setNewText d.edits index.toNat text }, true)
  else
    (d, false)

/-- `UnifiedEdit` (diff.go lines 145-149): formats the single edit
`d.edits[index]` with NO bounds check in the Go source — an out-of-range
index panics on the slice access.  The panic is embedded as `none`. -/
def UnifiedEdit (toU : String → String → String → List TextEdit → String)
    (d : Diff) (index : Int) : Option String :=
  let ab := abPaths d.path
  if 0 ≤ index ∧ index < Len d then
    some (toU ab.1 ab.2 d.source [d.edits.getD index.toNat dummyEdit])
  else
    none

/-- `EditGroup` (diff.go lines 184-194): formats the edits of group `index`;
an out-of-range group index yields the zero-value string.  (The `gid`
lookups are in range for any `New`-built Diff, so `getD` is exact there.) -/
def EditGroup (toU : String → String → String → List TextEdit → String)
    (d : Diff) (index : Int) : String :=
  let ab := abPaths d.path
  if 0 ≤ index ∧ index < (d.groups.length : Int) then
    toU ab.1 ab.2 d.source
      ((d.groups.getD index.toNat []).map fun gid => d.edits.getD gid dummyEdit)
  else
    ""

/-- `KeepGroup` (diff.go): applies `KeepEdit` to every index of a valid
group; silently a no-op for an out-of-range group index. -/
def KeepGroup (d : Diff) (index : Int) : Diff :=
  if 0 ≤ index ∧ index < (d.groups.length : Int) then
    (d.groups.getD index.toNat []).foldl (fun dd gid => (KeepEdit dd (gid : Int)).1) d
  else
    d

/-- `SkipGroup` (diff.go): applies `SkipEdit` to every index of a valid
group; silently a no-op for an out-of-range group index. -/
def SkipGroup (d : Diff) (index : Int) : Diff :=
  if 0 ≤ index ∧ index < (d.groups.length : Int) then
    (d.groups.getD index.toNat []).foldl (fun dd gid => (SkipEdit dd (gid : Int)).1) d
  else
    d

/-! ## Render engine (render.go, render-batch.go)

Markup configuration mirrors the Go `CRender` struct; the five tag-pair
slots keep their Go field names. -/

structure MarkupTag where
  Open : String
  Close : String
  deriving Repr, DecidableEq

structure AddRemTags where
  Add : MarkupTag
  Rem : MarkupTag
  deriving Repr, DecidableEq

structure CRender where
  File : MarkupTag
  Normal : MarkupTag
  Comment : MarkupTag
  Line : AddRemTags
  Text : AddRemTags
  deriving Repr, DecidableEq

/-- One segment of the external character-diff collaborator's output
(diffmatchpatch.Diff): a kind (delete / insert / equal) and its text. -/
inductive SegKind where
  | delete
  | insert
  | equal
  deriving Repr, DecidableEq

structure DmpDiff where
  kind : SegKind
  text : String
  deriving Repr, DecidableEq

/-- Go html.EscapeString escapes exactly the five characters
`&` (38), `'` (39), `<` (60), `>` (62), `"` (34); character codes are used
here to keep the quote characters out of the Lean source. -/
def escChar (c : Char) : String :=
  if c.toNat = 38 then "&amp;"
  else if c.toNat = 39 then "&#39;"
  else if c.toNat = 60 then "&lt;"
  else if c.toNat = 62 then "&gt;"
  else if c.toNat = 34 then "&#34;"
  else String.mk [c]

/-- html.EscapeString over a whole string. -/
def escapeString (s : String) : String :=
  String.join (s.data.map escChar)

/-- All characters of a string after the first (Go `line[1:]`). -/
def strTail (s : String) : String := String.mk s.data.tail

/-- `RenderLine` (render.go): runs the external character-diff collaborator
`dmp` on the two lines and folds its segments into the removal/addition
markup pair.  Each segment's text is escaped first; delete segments go to the
first output wrapped in Text.Rem, insert segments to the second wrapped in
Text.Add, equal segments to both unwrapped. -/
def RenderLine (dmp : String → String → List DmpDiff) (r : CRender)
    (a b : String) : String × String :=
  (dmp a b).foldl
    (fun m seg =>
      let text := escapeString seg.text
      match seg.kind with
      | .delete => (m.1 ++ (r.Text.Rem.Open ++ text ++ r.Text.Rem.Close), m.2)
      | .insert => (m.1, m.2 ++ (r.Text.Add.Open ++ text ++ r.Text.Add.Close))
      | .equal => (m.1 ++ text, m.2 ++ text))
    ("", "")

/-- `renderBatch` (render-batch.go): the accumulated removal (`d`) and
addition (`a`) raw line contents of one contiguous removal/addition run. -/
structure RenderBatch where
  d : List String
  a : List String
  deriving Repr, DecidableEq

/-- The rewrite loop inside `processRenderDiffBatch`: for each removal index
`idx < numDel` that has an addition partner (`idx < numAdd`), `RenderLine`
(here the abstract `rl`) is run on the raw pair and the two previously
appended output lines are overwritten in place. -/
def pairStep (rl : String → String → String × String) (bd ba : List String)
    (lastIdx : Nat) (ls : List String) (idx : Nat) : List String :=
  if idx < ba.length then
    let p := rl (bd.getD idx "") (ba.getD idx "")
    (ls.set (lastIdx - bd.length - ba.length + idx) ("-" ++ p.1)).set
      (lastIdx - ba.length + idx) ("+" ++ p.2)
  else ls

def pairWrites (rl : String → String → String × String) (bd ba : List String)
    (lastIdx : Nat) (lines : List String) : List String :=
  (List.range bd.length).foldl (pairStep rl bd ba lastIdx) lines

/-- `processRenderDiffBatch` (render.go lines 146-164): flushes a pending
batch.  Nothing happens without a batch or when either side of the batch is
empty; otherwise the paired lines are rewritten.  The batch pointer is
always cleared. -/
def processRenderDiffBatch (rl : String → String → String × String)
    (lastIdx : Nat) (lines : List String) (batch : Option RenderBatch) :
    List String × Option RenderBatch :=
  match batch with
  | none => (lines, none)
  | some b =>
    if 0 < b.d.length then
      if 0 < b.a.length then
        (pairWrites rl b.d b.a lastIdx lines, none)
      else (lines, none)
    else (lines, none)

/-- The loop of `prepareRenderDiff` (render.go lines 166-204), recursing over
the remaining original lines: `idx` is the current original index, `lines`
the output accumulated so far, `batch` the open batch if any.  After the
loop the final flush runs with `lastIdx = len(original)`. -/
def prepareGo (rl : String → String → String × String) :
    Nat → List String → Option RenderBatch → List String → List String
  | idx, lines, batch, [] => (processRenderDiffBatch rl idx lines batch).1
  | idx, lines, batch, line :: rest =>
    if idx < 2 then
      -- skip the patch header lines
      prepareGo rl (idx + 1) (lines ++ [line]) batch rest
    else if line.length = 0 then
      let pr := processRenderDiffBatch rl idx (lines ++ [""]) batch
      prepareGo rl (idx + 1) pr.1 pr.2 rest
    else
      let lines2 := lines ++ [String.mk [firstChar line] ++ escapeString (strTail line)]
      match batch with
      | none =>
        if firstChar line = '-' then
          -- new batch starting
          prepareGo rl (idx + 1) lines2 (some ⟨[strTail line], []⟩) rest
        else
          prepareGo rl (idx + 1) lines2 none rest
      | some b =>
        -- batch in progress
        if firstChar line = '-' then
          if 0 < b.a.length then
            let pr := processRenderDiffBatch rl idx lines2 (some b)
            prepareGo rl (idx + 1) pr.1 (some ⟨[strTail line], []⟩) rest
          else
            prepareGo rl (idx + 1) lines2 (some ⟨b.d ++ [strTail line], b.a⟩) rest
        else if firstChar line = '+' then
          prepareGo rl (idx + 1) lines2 (some ⟨b.d, b.a ++ [strTail line]⟩) rest
        else
          let pr := processRenderDiffBatch rl idx lines2 (some b)
          prepareGo rl (idx + 1) pr.1 pr.2 rest

/-- `prepareRenderDiff` (render.go): the full pre-pass over the split lines. -/
def prepareRenderDiff (rl : String → String → String × String)
    (original : List String) : List String :=
  prepareGo rl 0 [] none original

/-- Go strings.Split(s, "\n"): split on every newline (char code 10),
keeping empty fields. -/
def splitLinesAux : List Char → List Char → List String
  | [], acc => [String.mk acc.reverse]
  | c :: cs, acc =>
    if c.toNat = 10 then String.mk acc.reverse :: splitLinesAux cs []
    else splitLinesAux cs (c :: acc)

def splitLines (s : String) : List String := splitLinesAux s.data []

/-- The classification-and-wrap loop of `RenderDiff` (render.go lines
210-231): every non-empty line is wrapped according to its first character
(`+` Line.Add, `-` Line.Rem, `@`/`\`/`#` (code 92 is the backslash) Comment,
anything else Normal) followed by a newline; an empty line adds nothing. -/
def renderDiffBody (r : CRender) (lines : List String) : String :=
  lines.foldl
    (fun markup line =>
      if 0 < line.length then
        (markup ++
          (if firstChar line = '+' then r.Line.Add.Open ++ line ++ r.Line.Add.Close
           else if firstChar line = '-' then r.Line.Rem.Open ++ line ++ r.Line.Rem.Close
           else if firstChar line = '@' ∨ (firstChar line).toNat = 92 ∨ firstChar line = '#' then
             r.Comment.Open ++ line ++ r.Comment.Close
           else r.Normal.Open ++ line ++ r.Normal.Close)) ++ "\n"
      else markup)
    ""

/-- `RenderDiff` (render.go lines 206-235): split, pre-pass, classify, and
wrap the whole body once in the File tag pair. -/
def RenderDiff (dmp : String → String → List DmpDiff) (r : CRender)
    (unified : String) : String :=
  let original := splitLines unified
  let lines := prepareRenderDiff (fun a b => RenderLine dmp r a b) original
  r.File.Open ++ renderDiffBody r lines ++ r.File.Close

/-! ## Concrete fixtures used by witnesses and counterexamples -/

/-- A trivial stand-in for the external `gotextdiff.ToUnified` collaborator. -/
def toU0 : String → String → String → List TextEdit → String := fun _ _ _ _ => ""

/-- A trivial stand-in for the external `diffmatchpatch.DiffMain` collaborator. -/
def dmp0 : String → String → List DmpDiff := fun _ _ => []

/-- A trivial stand-in for `RenderLine` used in batch-flush witnesses. -/
def rl0 : String → String → String × String := fun a b => (a, b)

def e0 : TextEdit := { Span := { Start := ⟨1, 0⟩, End := ⟨1, 0⟩ }, NewText := "x" }

/-- A one-edit Diff with an empty keep set. -/
def dA : Diff :=
  { path := "p", source := "s", changed := "c", edits := [e0], keep := ∅, groups := [[0]] }

/-- The same one-edit Diff with edit 0 kept. -/
def dB : Diff := { dA with keep := {0} }

/-- A markup configuration with distinct visible tags for every slot. -/
def cfgT : CRender :=
  { File := ⟨"[F]", "[/F]"⟩, Normal := ⟨"[N]", "[/N]"⟩, Comment := ⟨"[C]", "[/C]"⟩,
    Line := ⟨⟨"[+]", "[/+]"⟩, ⟨"[-]", "[/-]"⟩⟩,
    Text := ⟨⟨"[ta]", "[/ta]"⟩, ⟨"[tr]", "[/tr]"⟩⟩ }

/-! ## General-purpose helper lemmas -/

lemma strAppend_assoc (a b c : String) : (a ++ b) ++ c = a ++ (b ++ c) := by
  apply String.ext; simp [String.data_append]

lemma strAppend_empty (a : String) : a ++ "" = a := by
  apply String.ext; simp [String.data_append]

lemma getD_set_ne {α : Type} (l : List α) (i j : Nat) (x dflt : α) (h : i ≠ j) :
    (l.set i x).getD j dflt = l.getD j dflt := by
  simp [List.getD_eq_getElem?_getD, List.getElem?_set, h]

lemma getD_set_self {α : Type} (l : List α) (i : Nat) (x dflt : α) (h : i < l.length) :
    (l.set i x).getD i dflt = x := by
  simp [List.getD_eq_getElem?_getD, List.getElem?_set, h]

/-! ## C8 / C9 -/

/-- C8: the unified-diff header labels use the `a/` and `b/` forms of the
supplied path, and the explicit `/` separator is omitted exactly when the
path is empty or already begins with `/`. -/
theorem c8_ab_path_labels (path : String) :
    abPaths path =
      if path = "" ∨ firstChar path = '/' then ("a" ++ path, "b" ++ path)
      else ("a/" ++ path, "b/" ++ path) := by
  unfold abPaths
  by_cases h1 : path = "" <;> by_cases h2 : firstChar path = '/' <;>
    simp [h1, h2]

/-- C9: `Unified()` never fails — the error component of its result is
always nil, for every Diff and every formatting collaborator. -/
theorem c9_unified_never_fails
    (toU : String → String → String → List TextEdit → String) (d : Diff) :
    (Unified toU d).2 = none := rfl

/-! ## C4: KeepEdit / SkipEdit boolean results -/

/-- C4 counterexample: on the one-edit Diff `dA` with an empty keep set the
index 0 is in range, yet `SkipEdit` returns `false` — so the claim that
`SkipEdit(i)` returns true exactly on in-range `i`, independent of the keep
state, is false on the code. -/
theorem c4_skipedit_inrange_false :
    (0 : Int) ≤ 0 ∧ (0 : Int) < Len dA ∧ (SkipEdit dA 0).2 = false := by decide

/-- C4 (amended): `KeepEdit(i)` returns true exactly when `i ∈ [0, Len())`
and its boolean is independent of the keep state; `SkipEdit(i)` returns true
exactly when `i` is in range AND currently kept (its boolean depends on the
keep state); out of range, both are no-ops returning false. -/
theorem c4_keep_skip_booleans (d : Diff) (i : Int) :
    ((KeepEdit d i).2 = true ↔ 0 ≤ i ∧ i < Len d)
    ∧ ((SkipEdit d i).2 = true ↔ (0 ≤ i ∧ i < Len d) ∧ i ∈ d.keep)
    ∧ (¬ (0 ≤ i ∧ i < Len d) → KeepEdit d i = (d, false) ∧ SkipEdit d i = (d, false)) := by
  have hlen : Len d = (d.edits.length : Int) := rfl
  refine ⟨?_, ?_, ?_⟩
  · unfold KeepEdit
    split
    · simp_all
    · simp_all; omega
  · unfold SkipEdit
    split
    · split
      · simp_all
      · simp_all
    · simp_all; omega
  · intro h
    have hcond : ¬ (0 < d.edits.length ∧ 0 ≤ i ∧ i < (d.edits.length : Int)) := by
      rw [hlen] at h; omega
    unfold KeepEdit SkipEdit
    rw [if_neg hcond, if_neg hcond]
    exact ⟨rfl, rfl⟩

/-- C4 witness: the amended theorem applied at the concrete Diff `dB`
(edit 0 kept) and index 0. -/
theorem c4_keep_skip_booleans_w : (SkipEdit dB 0).2 = true :=
  (c4_keep_skip_booleans dB 0).2.1.mpr (by decide)

/-! ## C5: KeepEdit/SkipEdit inverse law for KeepLen -/

/-- C5 counterexample: on `dB`, where edit 0 is already kept, `KeepLen` is 1
before `KeepEdit(0); SkipEdit(0)` and 0 afterwards, so the inverse law fails
on the code for an already-kept index. -/
theorem c5_inverse_law_fails_when_kept :
    KeepLen dB = 1 ∧ KeepLen (SkipEdit (KeepEdit dB 0).1 0).1 = 0 := by decide

/-- C5 (amended): whenever `i` is not currently kept — in particular for any
out-of-range `i` — `KeepEdit(i)` followed by `SkipEdit(i)` restores
`KeepLen()` to its prior value.  (When `i` is already kept, the pair instead
removes `i`, dropping `KeepLen()` by one.) -/
theorem c5_keep_skip_keeplen (d : Diff) (i : Int) (h : i ∉ d.keep) :
    KeepLen (SkipEdit (KeepEdit d i).1 i).1 = KeepLen d := by
  by_cases hP : 0 < d.edits.length ∧ 0 ≤ i ∧ i < (d.edits.length : Int)
  · unfold KeepEdit
    rw [if_pos hP]
    unfold SkipEdit
    simp only
    rw [if_pos hP, if_pos (Finset.mem_insert_self i d.keep)]
    simp [KeepLen, Finset.erase_insert h]
  · unfold KeepEdit
    rw [if_neg hP]
    unfold SkipEdit
    simp only
    rw [if_neg hP]

/-- C5 witness: the amended theorem applied at `dA` (keep set empty) and
index 0. -/
theorem c5_keep_skip_keeplen_w : KeepLen (SkipEdit (KeepEdit dA 0).1 0).1 = KeepLen dA :=
  c5_keep_skip_keeplen dA 0 (by decide)

/-! ## C10: SetEdit / GetEdit -/

lemma setNewText_length (es : List TextEdit) (t : String) :
    ∀ n, (setNewText es n t).length = es.length := by
  induction es with
  | nil => intro n; rfl
  | cons e es ih =>
    intro n
    cases n with
    | zero => simp [setNewText]
    | succ m => simp [setNewText, ih]

lemma setNewText_getD_self (es : List TextEdit) (t : String) :
    ∀ n, n < es.length →
      (setNewText es n t).getD n dummyEdit = { es.getD n dummyEdit with NewText := t } := by
  induction es with
  | nil => intro n h; simp at h
  | cons e es ih =>
    intro n h
    cases n with
    | zero => simp [setNewText]
    | succ m =>
      simp only [setNewText, List.getD_cons_succ]
      exact ih m (by simpa using h)

lemma setNewText_getD_ne (es : List TextEdit) (t : String) :
    ∀ n j, n ≠ j → (setNewText es n t).getD j dummyEdit = es.getD j dummyEdit := by
  induction es with
  | nil => intro n j _; cases n <;> rfl
  | cons e es ih =>
    intro n j hne
    cases n with
    | zero =>
      cases j with
      | zero => exact absurd rfl hne
      | succ m => simp [setNewText]
    | succ m =>
      cases j with
      | zero => simp [setNewText]
      | succ k =>
        simp only [setNewText, List.getD_cons_succ]
        exact ih m k (by omega)

/-- C10: for a valid index `i` and any text `t`, `SetEdit(i, t)` succeeds, a
subsequent `GetEdit(i)` returns `(t, true)`, and only the replacement text of
edit `i` changes — path/source/changed, the keep set, the groups, the edit
count, every edit's span, and every other edit are untouched. -/
theorem c10_setedit_getedit (d : Diff) (i : Int) (t : String)
    (h0 : 0 ≤ i) (h1 : i < Len d) :
    (SetEdit d i t).2 = true
    ∧ GetEdit (SetEdit d i t).1 i = (t, true)
    ∧ (SetEdit d i t).1.keep = d.keep
    ∧ (SetEdit d i t).1.groups = d.groups
    ∧ (SetEdit d i t).1.path = d.path
    ∧ (SetEdit d i t).1.source = d.source
    ∧ (SetEdit d i t).1.changed = d.changed
    ∧ Len (SetEdit d i t).1 = Len d
    ∧ (∀ j : Nat, ((SetEdit d i t).1.edits.getD j dummyEdit).Span
        = (d.edits.getD j dummyEdit).Span)
    ∧ (∀ j : Nat, (j : Int) ≠ i →
        (SetEdit d i t).1.edits.getD j dummyEdit = d.edits.getD j dummyEdit) := by
  have hP : 0 ≤ i ∧ i < Len d := ⟨h0, h1⟩
  have hset : SetEdit d i t = ({ d with edits := setNewText d.edits i.toNat t }, true) := by
    unfold SetEdit; rw [if_pos hP]
  have hlen : i.toNat < d.edits.length := by
    have : Len d = (d.edits.length : Int) := rfl
    omega
  have hLen2 : Len { d with edits := setNewText d.edits i.toNat t } = Len d := by
    simp [Len, setNewText_length]
  refine ⟨by rw [hset], ?_, by rw [hset], by rw [hset], by rw [hset], by rw [hset],
    by rw [hset], by rw [hset, hLen2], ?_, ?_⟩
  · rw [hset]
    unfold GetEdit
    rw [if_pos (by rw [hLen2]; exact hP)]
    rw [show ({ d with edits := setNewText d.edits i.toNat t } : Diff).edits
          = setNewText d.edits i.toNat t from rfl,
        setNewText_getD_self d.edits t i.toNat hlen]
  · intro j
    rw [hset]
    by_cases hj : j = i.toNat
    · subst hj
      rw [show ({ d with edits := setNewText d.edits i.toNat t } : Diff).edits
            = setNewText d.edits i.toNat t from rfl,
          setNewText_getD_self d.edits t i.toNat hlen]
    · rw [show ({ d with edits := setNewText d.edits i.toNat t } : Diff).edits
            = setNewText d.edits i.toNat t from rfl,
          setNewText_getD_ne d.edits t i.toNat j (by omega)]
  · intro j hj
    rw [hset]
    rw [show ({ d with edits := setNewText d.edits i.toNat t } : Diff).edits
          = setNewText d.edits i.toNat t from rfl]
    exact setNewText_getD_ne d.edits t i.toNat j (by omega)

/-- C10 witness: on the one-edit Diff `dA`, setting edit 0 then reading it
back yields the new text with a true boolean. -/
theorem c10_setedit_getedit_w : GetEdit (SetEdit dA 0 "n").1 0 = ("n", true) :=
  (c10_setedit_getedit dA 0 "n" (by decide) (by decide)).2.1

/-! ## C1: out-of-range index handling -/

/-- C1 counterexample: on the zero-edit Diff obtained by clearing `dA`'s
edits, index 0 is out of range and `UnifiedEdit` faults (the Go code indexes
`d.edits[index]` with no bounds check, panicking; the fault is the `none`
result here), so the claim that every index-addressed operation is a non-
faulting no-op is false on the code. -/
theorem c1_unifiededit_faults :
    Len { dA with edits := [] } = 0
    ∧ UnifiedEdit toU0 { dA with edits := [] } 0 = none := by decide

/-- C1 (amended): for every out-of-range edit index `i` and group index `j`,
the operations KeepEdit, SkipEdit, GetEdit, SetEdit, KeepGroup, SkipGroup and
EditGroup are no-ops that report failure at most via a boolean result and
never fault; `UnifiedEdit`, however, indexes the edit slice unchecked and
faults (modelled as `none`). -/
theorem c1_out_of_range_noops
    (toU : String → String → String → List TextEdit → String)
    (d : Diff) (i j : Int) (t : String)
    (hi : i < 0 ∨ Len d ≤ i) (hj : j < 0 ∨ EditGroupsLen d ≤ j) :
    KeepEdit d i = (d, false)
    ∧ SkipEdit d i = (d, false)
    ∧ GetEdit d i = ("", false)
    ∧ SetEdit d i t = (d, false)
    ∧ KeepGroup d j = d
    ∧ SkipGroup d j = d
    ∧ EditGroup toU d j = ""
    ∧ UnifiedEdit toU d i = none := by
  have hlen : Len d = (d.edits.length : Int) := rfl
  have hglen : EditGroupsLen d = (d.groups.length : Int) := rfl
  have hci : ¬ (0 < d.edits.length ∧ 0 ≤ i ∧ i < (d.edits.length : Int)) := by omega
  have hci2 : ¬ (0 ≤ i ∧ i < Len d) := by omega
  have hcj : ¬ (0 ≤ j ∧ j < (d.groups.length : Int)) := by omega
  refine ⟨?_, ?_, ?_, ?_, ?_, ?_, ?_, ?_⟩
  · unfold KeepEdit; rw [if_neg hci]
  · unfold SkipEdit; rw [if_neg hci]
  · unfold GetEdit; rw [if_neg hci2]
  · unfold SetEdit; rw [if_neg hci2]
  · unfold KeepGroup; rw [if_neg hcj]
  · unfold SkipGroup; rw [if_neg hcj]
  · unfold EditGroup; rw [if_neg hcj]
  · unfold UnifiedEdit; rw [if_neg hci2]

/-- C1 witness: the amended theorem applied at `dA` with indices -1. -/
theorem c1_out_of_range_noops_w : KeepEdit dA (-1) = (dA, false) :=
  (c1_out_of_range_noops toU0 dA (-1) (-1) "" (by decide) (by decide)).1

/-! ## C3: group partition -/

/-- Core invariant of the `init` grouping pass: flattening the groups built
so far, the accumulating group and the indices still to come yields exactly
the contiguous index range. -/
lemma buildGroups_flatten (ls : List Int) :
    ∀ (prev : Int) (group : List Nat) (groups : List (List Nat)) (idx : Nat),
      (buildGroups prev group groups idx ls).flatten
        = groups.flatten ++ group ++ List.range' idx ls.length := by
  induction ls with
  | nil =>
    intro prev group groups idx
    unfold buildGroups
    split
    · simp [List.flatten_append]
    · have hg : group = [] := by
        rename_i h
        simpa using List.length_eq_zero.mp (by omega)
      simp [hg]
  | cons thisLine rest ih =>
    intro prev group groups idx
    unfold buildGroups
    split
    · rw [ih]
      simp [List.range'_succ, List.append_assoc]
    · split
      · rw [ih]
        simp [List.range'_succ, List.append_assoc]
      · rw [ih]
        simp [List.flatten_append, List.range'_succ, List.append_assoc]

/-- C3: for every Diff built by `New`, the computed groups partition the full
edit index range: their concatenation is exactly `[0, Len())` in increasing
order (single left-to-right pass, no re-ordering), hence the groups are
pairwise disjoint and exhaustive. -/
theorem c3_groups_partition
    (computeEdits : String → String → String → List TextEdit)
    (path source changed : String) :
    (New computeEdits path source changed).groups.flatten
        = List.range (New computeEdits path source changed).edits.length
    ∧ List.Pairwise List.Disjoint (New computeEdits path source changed).groups
    ∧ List.Pairwise (· < ·) (New computeEdits path source changed).groups.flatten := by
  have hflat : (New computeEdits path source changed).groups.flatten
      = List.range (New computeEdits path source changed).edits.length := by
    show (computeGroups _).flatten = _
    unfold computeGroups
    rw [buildGroups_flatten]
    simp [List.range_eq_range', New]
  refine ⟨hflat, ?_, ?_⟩
  · exact (List.nodup_flatten.mp (by rw [hflat]; exact List.nodup_range _)).2
  · rw [hflat]; exact List.pairwise_lt_range _

/-! ## C7: line classification in RenderDiff -/

/-- Concatenation of a list of strings (spec-side helper). -/
def joinStrs : List String → String
  | [] => ""
  | s :: rest => s ++ joinStrs rest

/-- The markup contributed by one prepared line, as the spec describes the
classification: a non-empty line is wrapped by its first character
(`+` Line.Add, `-` Line.Rem, `@`/backslash/`#` Comment, otherwise Normal)
and terminated; an empty line contributes nothing. -/
def lineMarkup (r : CRender) (line : String) : String :=
  if 0 < line.length then
    (if firstChar line = '+' then r.Line.Add.Open ++ line ++ r.Line.Add.Close
     else if firstChar line = '-' then r.Line.Rem.Open ++ line ++ r.Line.Rem.Close
     else if firstChar line = '@' ∨ (firstChar line).toNat = 92 ∨ firstChar line = '#' then
       r.Comment.Open ++ line ++ r.Comment.Close
     else r.Normal.Open ++ line ++ r.Normal.Close) ++ "\n"
  else ""

lemma foldl_strcat {α : Type} (f : α → String) :
    ∀ (l : List α) (init : String),
      l.foldl (fun m x => m ++ f x) init = init ++ joinStrs (l.map f) := by
  intro l
  induction l with
  | nil => intro init; simp [joinStrs, strAppend_empty]
  | cons x t ih =>
    intro init
    simp only [List.foldl_cons, List.map_cons, joinStrs]
    rw [ih, strAppend_assoc]

/-- The `RenderDiff` classification fold equals the per-line markup map. -/
lemma renderDiffBody_eq (r : CRender) (lines : List String) :
    renderDiffBody r lines = joinStrs (lines.map (lineMarkup r)) := by
  unfold renderDiffBody
  have hstep :
      (fun (markup line : String) =>
        if 0 < line.length then
          (markup ++
            (if firstChar line = '+' then r.Line.Add.Open ++ line ++ r.Line.Add.Close
             else if firstChar line = '-' then r.Line.Rem.Open ++ line ++ r.Line.Rem.Close
             else if firstChar line = '@' ∨ (firstChar line).toNat = 92 ∨ firstChar line = '#' then
               r.Comment.Open ++ line ++ r.Comment.Close
             else r.Normal.Open ++ line ++ r.Normal.Close)) ++ "\n"
        else markup)
      = fun (m line : String) => m ++ lineMarkup r line := by
    funext m line
    unfold lineMarkup
    split
    · rw [strAppend_assoc]
    · rw [strAppend_empty]
  rw [hstep, foldl_strcat]
  rfl

/-- C7 counterexample: for the input `"A\nB\n@@\n\n x"`, whose fourth line is
empty, the rendered output contains no empty Normal-wrapped line — the
empty line is dropped entirely, contradicting the claim that it still
appears wrapped in Normal tags with its terminator. -/
theorem c7_empty_line_dropped :
    ¬ ("[N][/N]\n".data <:+: (RenderDiff dmp0 cfgT "A\nB\n@@\n\n x").data) := by decide


/-! ## C6: header lines through the render pipeline -/

lemma pairStep_length (rl : String → String → String × String)
    (bd ba : List String) (lastIdx : Nat) (ls : List String) (idx : Nat) :
    (pairStep rl bd ba lastIdx ls idx).length = ls.length := by
  unfold pairStep
  split <;> simp

lemma foldl_pairStep_length (rl : String → String → String × String)
    (bd ba : List String) (lastIdx : Nat) :
    ∀ (ks : List Nat) (ls : List String),
      (ks.foldl (pairStep rl bd ba lastIdx) ls).length = ls.length := by
  intro ks
  induction ks with
  | nil => intro ls; rfl
  | cons k t ih =>
    intro ls
    rw [List.foldl_cons, ih, pairStep_length]

lemma processRenderDiffBatch_length (rl : String → String → String × String)
    (lastIdx : Nat) (lines : List String) (batch : Option RenderBatch) :
    (processRenderDiffBatch rl lastIdx lines batch).1.length = lines.length := by
  unfold processRenderDiffBatch
  match batch with
  | none => rfl
  | some b =>
    simp only
    split
    · split
      · exact foldl_pairStep_length rl b.d b.a lastIdx _ lines
      · rfl
    · rfl

lemma processRenderDiffBatch_clears (rl : String → String → String × String)
    (lastIdx : Nat) (lines : List String) (batch : Option RenderBatch) :
    (processRenderDiffBatch rl lastIdx lines batch).2 = none := by
  unfold processRenderDiffBatch
  match batch with
  | none => rfl
  | some b =>
    simp only
    split
    · split <;> rfl
    · rfl

lemma take2_set {α : Type} (l : List α) (p : Nat) (x : α) (h : 2 ≤ p) :
    (l.set p x).take 2 = l.take 2 := by
  obtain ⟨n, rfl⟩ : ∃ n, p = n + 2 := ⟨p - 2, by omega⟩
  match l with
  | [] => rfl
  | [a] => rfl
  | a :: b :: t => simp [List.set]

lemma pairStep_take2 (rl : String → String → String × String)
    (bd ba : List String) (lastIdx : Nat) (ls : List String) (idx : Nat)
    (h : bd.length + ba.length + 2 ≤ lastIdx) :
    (pairStep rl bd ba lastIdx ls idx).take 2 = ls.take 2 := by
  unfold pairStep
  split
  · rw [take2_set _ _ _ (by omega), take2_set _ _ _ (by omega)]
  · rfl

lemma foldl_pairStep_take2 (rl : String → String → String × String)
    (bd ba : List String) (lastIdx : Nat)
    (h : bd.length + ba.length + 2 ≤ lastIdx) :
    ∀ (ks : List Nat) (ls : List String),
      (ks.foldl (pairStep rl bd ba lastIdx) ls).take 2 = ls.take 2 := by
  intro ks
  induction ks with
  | nil => intro ls; rfl
  | cons k t ih =>
    intro ls
    rw [List.foldl_cons, ih, pairStep_take2 rl bd ba lastIdx ls k h]

lemma processRenderDiffBatch_take2 (rl : String → String → String × String)
    (lastIdx : Nat) (lines : List String) (batch : Option RenderBatch)
    (hb : ∀ b, batch = some b → b.d.length + b.a.length + 2 ≤ lastIdx) :
    (processRenderDiffBatch rl lastIdx lines batch).1.take 2 = lines.take 2 := by
  unfold processRenderDiffBatch
  match batch with
  | none => rfl
  | some b =>
    simp only
    split
    · split
      · exact foldl_pairStep_take2 rl b.d b.a lastIdx (hb b rfl) _ lines
      · rfl
    · rfl

/-- Invariant proof for the pre-pass scan: from index 2 on, with at least two
output lines already emitted and any open batch small enough that its flush
rewrites only positions ≥ 2, the first two output lines never change. -/
lemma prepareGo_take2 (rl : String → String → String × String) :
    ∀ (rest : List String) (idx : Nat) (lines : List String)
      (batch : Option RenderBatch),
      2 ≤ idx → 2 ≤ lines.length →
      (∀ b, batch = some b → b.d.length + b.a.length + 2 ≤ idx) →
      (prepareGo rl idx lines batch rest).take 2 = lines.take 2 := by
  intro rest
  induction rest with
  | nil =>
    intro idx lines batch _ _ hb
    exact processRenderDiffBatch_take2 rl idx lines batch hb
  | cons line rest ih =>
    intro idx lines batch hidx hlen hb
    unfold prepareGo
    rw [if_neg (by omega)]
    by_cases hempty : line.length = 0
    · rw [if_pos hempty]
      rw [ih (idx + 1) _ _ (by omega) ?_ ?_]
      · rw [processRenderDiffBatch_take2 rl idx (lines ++ [""]) batch
              (fun b h => hb b h),
            List.take_append_of_le_length hlen]
      · rw [processRenderDiffBatch_length]
        simp; omega
      · intro b h
        rw [processRenderDiffBatch_clears] at h
        exact absurd h (by simp)
    · rw [if_neg hempty]
      have hlen2 : 2 ≤ (lines ++ [String.mk [firstChar line] ++ escapeString (strTail line)]).length := by
        simp; omega
      have htake2 : (lines ++ [String.mk [firstChar line] ++ escapeString (strTail line)]).take 2
          = lines.take 2 := List.take_append_of_le_length hlen
      match batch with
      | none =>
        dsimp only
        by_cases hdash : firstChar line = '-'
        · rw [if_pos hdash, ih (idx + 1) _ _ (by omega) hlen2 (by intro b h; cases h; simp; omega)]
          exact htake2
        · rw [if_neg hdash, ih (idx + 1) _ _ (by omega) hlen2 (by intro b h; cases h)]
          exact htake2
      | some b =>
        dsimp only
        by_cases hdash : firstChar line = '-'
        · rw [if_pos hdash]
          by_cases hadds : 0 < b.a.length
          · rw [if_pos hadds]
            rw [ih (idx + 1) _ _ (by omega) ?_ (by intro b2 h2; cases h2; simp; omega)]
            · rw [processRenderDiffBatch_take2 rl idx _ (some b) (by intro b2 h2; cases h2; exact hb b rfl)]
              exact htake2
            · rw [processRenderDiffBatch_length]; exact hlen2
          · rw [if_neg hadds]
            rw [ih (idx + 1) _ _ (by omega) hlen2 ?_]
            · exact htake2
            · intro b2 h2
              cases h2
              have := hb b rfl
              simp; omega
        · rw [if_neg hdash]
          by_cases hplus : firstChar line = '+'
          · rw [if_pos hplus]
            rw [ih (idx + 1) _ _ (by omega) hlen2 ?_]
            · exact htake2
            · intro b2 h2
              cases h2
              have := hb b rfl
              simp; omega
          · rw [if_neg hplus]
            rw [ih (idx + 1) _ _ (by omega) ?_ ?_]
            · rw [processRenderDiffBatch_take2 rl idx _ (some b) (by intro b2 h2; cases h2; exact hb b rfl)]
              exact htake2
            · rw [processRenderDiffBatch_length]; exact hlen2
            · intro b2 h2
              rw [processRenderDiffBatch_clears] at h2
              exact absurd h2 (by simp)

/-- The pre-pass passes the first two (header) lines through untouched. -/
lemma prepareRenderDiff_take2 (rl : String → String → String × String)
    (original : List String) :
    (prepareRenderDiff rl original).take 2 = original.take 2 := by
  match original with
  | [] => rfl
  | [l0] => rfl
  | l0 :: l1 :: rest =>
    show (prepareGo rl 0 [] none (l0 :: l1 :: rest)).take 2 = _
    unfold prepareGo
    rw [if_pos (by omega)]
    unfold prepareGo
    rw [if_pos (by omega)]
    rw [prepareGo_take2 rl rest 2 ([] ++ [l0] ++ [l1]) none (by omega) (by simp)
          (by intro b h; cases h)]
    rfl

/-- C6 counterexample: rendering a standard unified diff whose first header
line is `--- a/f` wraps that header in the Line-removed tags — the header
lines are classified like every other line, contradicting the claim that
they receive none of the Normal/Comment/Line wrapping. -/
theorem c6_header_gets_line_tags :
    ("[-]--- a/f[/-]".data <:+:
      (RenderDiff dmp0 cfgT "--- a/f\n+++ b/f\n@@ -1 +1 @@\n x").data) := by decide

/-- C6 (amended): the first two lines of the input pass through the pre-pass
unmodified (not escaped, never rewritten by batch pairing), and the final
assembly wraps the whole body once in the File tag pair while classifying
every prepared line — the header lines included — by first character. -/
theorem c6_header_lines (dmp : String → String → List DmpDiff) (r : CRender)
    (unified : String) :
    (prepareRenderDiff (fun a b => RenderLine dmp r a b) (splitLines unified)).take 2
      = (splitLines unified).take 2
    ∧ RenderDiff dmp r unified
      = r.File.Open
        ++ joinStrs
            ((prepareRenderDiff (fun a b => RenderLine dmp r a b) (splitLines unified)).map
              (lineMarkup r))
        ++ r.File.Close := by
  refine ⟨prepareRenderDiff_take2 _ _, ?_⟩
  unfold RenderDiff
  dsimp only
  rw [renderDiffBody_eq]

/-! ## C2: the batch-flush rewrite -/

/-- Invariant of the flush loop after `k` iterations: the length is
preserved, every already-paired position holds its rewritten line, and every
other position still holds its original line. -/
lemma pairWrites_invariant (rl : String → String → String × String)
    (bd ba : List String) (lastIdx : Nat) (lines : List String)
    (hr : 0 < bd.length) (ha : 0 < ba.length)
    (hge : bd.length + ba.length ≤ lastIdx) (hle : lastIdx ≤ lines.length) :
    ∀ k, k ≤ bd.length →
      ((List.range k).foldl (pairStep rl bd ba lastIdx) lines).length = lines.length
      ∧ (∀ i, i < min k ba.length →
          ((List.range k).foldl (pairStep rl bd ba lastIdx) lines).getD
              (lastIdx - bd.length - ba.length + i) ""
            = "-" ++ (rl (bd.getD i "") (ba.getD i "")).1
          ∧ ((List.range k).foldl (pairStep rl bd ba lastIdx) lines).getD
              (lastIdx - ba.length + i) ""
            = "+" ++ (rl (bd.getD i "") (ba.getD i "")).2)
      ∧ (∀ j, ¬ (lastIdx - bd.length - ba.length ≤ j
              ∧ j < lastIdx - bd.length - ba.length + min k ba.length) →
            ¬ (lastIdx - ba.length ≤ j ∧ j < lastIdx - ba.length + min k ba.length) →
            ((List.range k).foldl (pairStep rl bd ba lastIdx) lines).getD j ""
              = lines.getD j "") := by
  intro k
  induction k with
  | zero =>
    intro _
    refine ⟨rfl, ?_, ?_⟩
    · intro i hi
      exact absurd hi (by omega)
    · intro j _ _
      rfl
  | succ k ih =>
    intro hk1
    obtain ⟨ihlen, ihpair, ihold⟩ := ih (by omega)
    rw [List.range_succ, List.foldl_append, List.foldl_cons, List.foldl_nil]
    set Fk := (List.range k).foldl (pairStep rl bd ba lastIdx) lines with hFk
    by_cases hka : k < ba.length
    · unfold pairStep
      rw [if_pos hka]
      dsimp only
      have hp1len : lastIdx - bd.length - ba.length + k < Fk.length := by
        rw [ihlen]; omega
      have hp2len : lastIdx - ba.length + k
          < (Fk.set (lastIdx - bd.length - ba.length + k)
              ("-" ++ (rl (bd.getD k "") (ba.getD k "")).1)).length := by
        rw [List.length_set, ihlen]; omega
      refine ⟨?_, ?_, ?_⟩
      · rw [List.length_set, List.length_set, ihlen]
      · intro i hi
        by_cases hik : i = k
        · subst hik
          constructor
          · have hne : lastIdx - ba.length + i ≠ lastIdx - bd.length - ba.length + i := by
              omega
            rw [getD_set_ne _ _ _ _ _ hne, getD_set_self _ _ _ _ hp1len]
          · rw [getD_set_self _ _ _ _ hp2len]
        · have hik2 : i < k := by omega
          have hne1 : lastIdx - ba.length + k ≠ lastIdx - bd.length - ba.length + i := by
            omega
          have hne2 : lastIdx - bd.length - ba.length + k
              ≠ lastIdx - bd.length - ba.length + i := by omega
          have hne3 : lastIdx - ba.length + k ≠ lastIdx - ba.length + i := by omega
          have hne4 : lastIdx - bd.length - ba.length + k ≠ lastIdx - ba.length + i := by
            omega
          constructor
          · rw [getD_set_ne _ _ _ _ _ hne1, getD_set_ne _ _ _ _ _ hne2]
            exact (ihpair i (by omega)).1
          · rw [getD_set_ne _ _ _ _ _ hne3, getD_set_ne _ _ _ _ _ hne4]
            exact (ihpair i (by omega)).2
      · intro j hj1 hj2
        have hminS : min (k + 1) ba.length = k + 1 := by omega
        rw [hminS] at hj1 hj2
        have hne1 : lastIdx - ba.length + k ≠ j := by omega
        have hne2 : lastIdx - bd.length - ba.length + k ≠ j := by omega
        rw [getD_set_ne _ _ _ _ _ hne1, getD_set_ne _ _ _ _ _ hne2]
        exact ihold j (by omega) (by omega)
    · unfold pairStep
      rw [if_neg hka]
      have hminS : min (k + 1) ba.length = min k ba.length := by omega
      rw [hminS]
      exact ⟨ihlen, ihpair, ihold⟩

/-- C2: flushing a batch with `r` removals and `a` additions rewrites
exactly the paired positions: for each `i < min r a`, `RenderLine` (here the
abstract `rl`) is applied to the batch's raw i-th removal and i-th addition
text, the output line at absolute position `lastIdx - r - a + i` becomes
`"-" + markupA` and the one at `lastIdx - a + i` becomes `"+" + markupB`;
every other position is unchanged, the length is preserved, the batch is
cleared, and a batch with zero removals or zero additions rewrites
nothing. -/
theorem c2_flush_pairs (rl : String → String → String × String)
    (bd ba lines : List String) (lastIdx : Nat)
    (hr : 0 < bd.length) (ha : 0 < ba.length)
    (hge : bd.length + ba.length ≤ lastIdx) (hle : lastIdx ≤ lines.length) :
    (processRenderDiffBatch rl lastIdx lines (some ⟨bd, ba⟩)).2 = none
    ∧ (processRenderDiffBatch rl lastIdx lines (some ⟨bd, ba⟩)).1.length = lines.length
    ∧ (∀ i, i < min bd.length ba.length →
        (processRenderDiffBatch rl lastIdx lines (some ⟨bd, ba⟩)).1.getD
            (lastIdx - bd.length - ba.length + i) ""
          = "-" ++ (rl (bd.getD i "") (ba.getD i "")).1
        ∧ (processRenderDiffBatch rl lastIdx lines (some ⟨bd, ba⟩)).1.getD
            (lastIdx - ba.length + i) ""
          = "+" ++ (rl (bd.getD i "") (ba.getD i "")).2)
    ∧ (∀ j, ¬ (lastIdx - bd.length - ba.length ≤ j
            ∧ j < lastIdx - bd.length - ba.length + min bd.length ba.length) →
          ¬ (lastIdx - ba.length ≤ j
            ∧ j < lastIdx - ba.length + min bd.length ba.length) →
          (processRenderDiffBatch rl lastIdx lines (some ⟨bd, ba⟩)).1.getD j ""
            = lines.getD j "")
    ∧ (∀ ba2, processRenderDiffBatch rl lastIdx lines (some ⟨[], ba2⟩) = (lines, none))
    ∧ (∀ bd2, processRenderDiffBatch rl lastIdx lines (some ⟨bd2, []⟩) = (lines, none)) := by
  have hrun : processRenderDiffBatch rl lastIdx lines (some ⟨bd, ba⟩)
      = (pairWrites rl bd ba lastIdx lines, none) := by
    unfold processRenderDiffBatch
    dsimp only
    rw [if_pos hr, if_pos ha]
  obtain ⟨hlen, hpair, hold⟩ :=
    pairWrites_invariant rl bd ba lastIdx lines hr ha hge hle bd.length (le_refl _)
  refine ⟨by rw [hrun], ?_, ?_, ?_, ?_, ?_⟩
  · rw [hrun]
    exact hlen
  · intro i hi
    rw [hrun]
    exact hpair i hi
  · intro j hj1 hj2
    rw [hrun]
    exact hold j hj1 hj2
  · intro ba2
    unfold processRenderDiffBatch
    simp
  · intro bd2
    unfold processRenderDiffBatch
    dsimp only
    split
    · rw [if_neg (by simp)]
    · rfl

/-- C2 witness: flushing the one-removal/one-addition batch over a
four-line buffer rewrites position 2 to the minus-marked first component of
the pairing. -/
theorem c2_flush_pairs_w :
    (processRenderDiffBatch rl0 4 ["l0", "l1", "-x", "+y"] (some ⟨["x"], ["y"]⟩)).1.getD
        (4 - ["x"].length - ["y"].length + 0) ""
      = "-" ++ (rl0 (["x"].getD 0 "") (["y"].getD 0 "")).1 :=
  ((c2_flush_pairs rl0 ["x"] ["y"] ["l0", "l1", "-x", "+y"] 4
      (by decide) (by decide) (by decide) (by decide)).2.2.1 0 (by decide)).1

/-! ## C7: escaping of classified lines, classification, empty-line drop -/

/-- The escape-rendered form the pre-pass appends for a non-header line:
the raw first character followed by the HTML-escaped remainder (an empty
line is appended as the empty string). -/
def escRender (line : String) : String :=
  if line.length = 0 then "" else String.mk [firstChar line] ++ escapeString (strTail line)

/-- A prepared output line is either the expected escape-rendered form or a
batch-pairing rewrite: `"-"`/`"+"` followed by a `RenderLine` markup
component (whose text segments are themselves escaped, see `RenderLine`). -/
def EscOrPair (rl : String → String → String × String) (s expect : String) : Prop :=
  s = expect ∨ (∃ a b, s = "-" ++ (rl a b).1) ∨ (∃ a b, s = "+" ++ (rl a b).2)

lemma getD_append_self {α : Type} (l : List α) (x d : α) :
    (l ++ [x]).getD l.length d = x := by
  induction l with
  | nil => rfl
  | cons a t ih => simp [ih]

lemma getD_set_or {α : Type} (l : List α) (i j : Nat) (x d : α) :
    (l.set i x).getD j d = x ∨ (l.set i x).getD j d = l.getD j d := by
  by_cases h : i = j
  · subst h
    by_cases hl : i < l.length
    · exact Or.inl (getD_set_self l i x d hl)
    · right
      rw [List.getD_eq_getElem?_getD, List.getD_eq_getElem?_getD, List.getElem?_set,
        if_pos rfl, if_neg hl, List.getElem?_eq_none (by omega)]
  · exact Or.inr (getD_set_ne l i j x d h)

/-- A single pairing write only ever installs a `"-"`/`"+"` RenderLine
rewrite, so it preserves the escape-or-pair shape of every position. -/
lemma pairStep_EscOrPair (rl : String → String → String × String)
    (bd ba : List String) (lastIdx : Nat) (ls : List String) (idx : Nat)
    (p : Nat) (e : String) (h : EscOrPair rl (ls.getD p "") e) :
    EscOrPair rl ((pairStep rl bd ba lastIdx ls idx).getD p "") e := by
  unfold pairStep
  split
  · dsimp only
    rcases getD_set_or
        (ls.set (lastIdx - bd.length - ba.length + idx)
          ("-" ++ (rl (bd.getD idx "") (ba.getD idx "")).1))
        (lastIdx - ba.length + idx) p
        ("+" ++ (rl (bd.getD idx "") (ba.getD idx "")).2) "" with h2 | h2
    · rw [h2]
      exact Or.inr (Or.inr ⟨bd.getD idx "", ba.getD idx "", rfl⟩)
    · rw [h2]
      rcases getD_set_or ls (lastIdx - bd.length - ba.length + idx) p
          ("-" ++ (rl (bd.getD idx "") (ba.getD idx "")).1) "" with h3 | h3
      · rw [h3]
        exact Or.inr (Or.inl ⟨bd.getD idx "", ba.getD idx "", rfl⟩)
      · rw [h3]
        exact h
  · exact h

lemma foldl_pairStep_EscOrPair (rl : String → String → String × String)
    (bd ba : List String) (lastIdx : Nat) (p : Nat) (e : String) :
    ∀ (ks : List Nat) (ls : List String), EscOrPair rl (ls.getD p "") e →
      EscOrPair rl ((ks.foldl (pairStep rl bd ba lastIdx) ls).getD p "") e := by
  intro ks
  induction ks with
  | nil => intro ls h; exact h
  | cons k t ih =>
    intro ls h
    rw [List.foldl_cons]
    exact ih _ (pairStep_EscOrPair rl bd ba lastIdx ls k p e h)

lemma processRenderDiffBatch_EscOrPair (rl : String → String → String × String)
    (lastIdx : Nat) (lines : List String) (batch : Option RenderBatch)
    (p : Nat) (e : String) (h : EscOrPair rl (lines.getD p "") e) :
    EscOrPair rl ((processRenderDiffBatch rl lastIdx lines batch).1.getD p "") e := by
  unfold processRenderDiffBatch pairWrites
  match batch with
  | none => exact h
  | some b =>
    simp only
    split
    · split
      · exact foldl_pairStep_EscOrPair rl b.d b.a lastIdx p e _ lines h
      · exact h
    · exact h

/-- Stability of the pre-pass: a position that already holds its expected
escape-rendered form (or a pairing rewrite) keeps that shape through the
rest of the scan — later steps only append or install pairing rewrites. -/
lemma prepareGo_EscOrPair (rl : String → String → String × String) :
    ∀ (rest : List String) (idx : Nat) (lines : List String)
      (batch : Option RenderBatch) (p : Nat) (e : String),
      p < lines.length → EscOrPair rl (lines.getD p "") e →
      EscOrPair rl ((prepareGo rl idx lines batch rest).getD p "") e := by
  intro rest
  induction rest with
  | nil =>
    intro idx lines batch p e _ h
    exact processRenderDiffBatch_EscOrPair rl idx lines batch p e h
  | cons line rest ih =>
    intro idx lines batch p e hp h
    unfold prepareGo
    have happ : ∀ v : String, (lines ++ [v]).getD p "" = lines.getD p "" :=
      fun v => List.getD_append lines [v] "" p hp
    have happlen : ∀ v : String, p < (lines ++ [v]).length := by
      intro v; simp; omega
    by_cases hidx : idx < 2
    · rw [if_pos hidx]
      exact ih (idx + 1) _ batch p e (happlen line) (by rw [happ]; exact h)
    rw [if_neg hidx]
    by_cases hempty : line.length = 0
    · rw [if_pos hempty]
      refine ih (idx + 1) _ _ p e ?_ ?_
      · rw [processRenderDiffBatch_length]
        exact happlen ""
      · exact processRenderDiffBatch_EscOrPair rl idx _ batch p e (by rw [happ]; exact h)
    rw [if_neg hempty]
    match batch with
    | none =>
      dsimp only
      by_cases hdash : firstChar line = '-'
      · rw [if_pos hdash]
        exact ih (idx + 1) _ _ p e (happlen _) (by rw [happ]; exact h)
      · rw [if_neg hdash]
        exact ih (idx + 1) _ _ p e (happlen _) (by rw [happ]; exact h)
    | some b =>
      dsimp only
      by_cases hdash : firstChar line = '-'
      · rw [if_pos hdash]
        by_cases hadds : 0 < b.a.length
        · rw [if_pos hadds]
          refine ih (idx + 1) _ _ p e ?_ ?_
          · rw [processRenderDiffBatch_length]
            exact happlen _
          · exact processRenderDiffBatch_EscOrPair rl idx _ (some b) p e (by rw [happ]; exact h)
        · rw [if_neg hadds]
          exact ih (idx + 1) _ _ p e (happlen _) (by rw [happ]; exact h)
      · rw [if_neg hdash]
        by_cases hplus : firstChar line = '+'
        · rw [if_pos hplus]
          exact ih (idx + 1) _ _ p e (happlen _) (by rw [happ]; exact h)
        · rw [if_neg hplus]
          refine ih (idx + 1) _ _ p e ?_ ?_
          · rw [processRenderDiffBatch_length]
            exact happlen _
          · exact processRenderDiffBatch_EscOrPair rl idx _ (some b) p e (by rw [happ]; exact h)

/-- Every non-header position of the pre-pass output holds the
escape-rendered form of its input line, unless a batch flush rewrote it
into a `"-"`/`"+"` RenderLine pairing. -/
lemma prepareGo_escapes (rl : String → String → String × String) :
    ∀ (rest : List String) (idx : Nat) (lines : List String)
      (batch : Option RenderBatch),
      lines.length = idx →
      ∀ k, k < rest.length → 2 ≤ idx + k →
        EscOrPair rl ((prepareGo rl idx lines batch rest).getD (idx + k) "")
          (escRender (rest.getD k "")) := by
  intro rest
  induction rest with
  | nil =>
    intro idx lines batch _ k hk _
    exact absurd hk (by simp)
  | cons line rest ih =>
    intro idx lines batch hlen k hk h2
    match k with
    | 0 =>
      rw [Nat.add_zero] at h2 ⊢
      rw [List.getD_cons_zero]
      have hidx : ¬ idx < 2 := by omega
      unfold prepareGo
      rw [if_neg hidx]
      by_cases hempty : line.length = 0
      · rw [if_pos hempty]
        have hexp : escRender line = "" := by
          unfold escRender
          rw [if_pos hempty]
        rw [hexp]
        refine prepareGo_EscOrPair rl rest (idx + 1) _ _ idx "" ?_ ?_
        · rw [processRenderDiffBatch_length]
          simp [hlen]
        · refine processRenderDiffBatch_EscOrPair rl idx _ batch idx "" ?_
          left
          rw [← hlen, getD_append_self]
      · rw [if_neg hempty]
        have hform : (lines ++ [String.mk [firstChar line] ++ escapeString (strTail line)]).getD idx ""
            = escRender line := by
          rw [← hlen, getD_append_self]
          unfold escRender
          rw [if_neg hempty]
        match batch with
        | none =>
          dsimp only
          by_cases hdash : firstChar line = '-'
          · rw [if_pos hdash]
            refine prepareGo_EscOrPair rl rest (idx + 1) _ _ idx _ ?_ ?_
            · simp [hlen]
            · exact Or.inl hform
          · rw [if_neg hdash]
            refine prepareGo_EscOrPair rl rest (idx + 1) _ _ idx _ ?_ ?_
            · simp [hlen]
            · exact Or.inl hform
        | some b =>
          dsimp only
          by_cases hdash : firstChar line = '-'
          · rw [if_pos hdash]
            by_cases hadds : 0 < b.a.length
            · rw [if_pos hadds]
              refine prepareGo_EscOrPair rl rest (idx + 1) _ _ idx _ ?_ ?_
              · rw [processRenderDiffBatch_length]
                simp [hlen]
              · exact processRenderDiffBatch_EscOrPair rl idx _ (some b) idx _ (Or.inl hform)
            · rw [if_neg hadds]
              refine prepareGo_EscOrPair rl rest (idx + 1) _ _ idx _ ?_ ?_
              · simp [hlen]
              · exact Or.inl hform
          · rw [if_neg hdash]
            by_cases hplus : firstChar line = '+'
            · rw [if_pos hplus]
              refine prepareGo_EscOrPair rl rest (idx + 1) _ _ idx _ ?_ ?_
              · simp [hlen]
              · exact Or.inl hform
            · rw [if_neg hplus]
              refine prepareGo_EscOrPair rl rest (idx + 1) _ _ idx _ ?_ ?_
              · rw [processRenderDiffBatch_length]
                simp [hlen]
              · exact processRenderDiffBatch_EscOrPair rl idx _ (some b) idx _ (Or.inl hform)
    | k2 + 1 =>
      have heq : idx + (k2 + 1) = (idx + 1) + k2 := by omega
      rw [heq, List.getD_cons_succ]
      have hk2 : k2 < rest.length := by
        simp only [List.length_cons] at hk
        omega
      have h22 : 2 ≤ (idx + 1) + k2 := by omega
      unfold prepareGo
      by_cases hidx : idx < 2
      · rw [if_pos hidx]
        exact ih (idx + 1) _ batch (by simp [hlen]) k2 hk2 h22
      rw [if_neg hidx]
      by_cases hempty : line.length = 0
      · rw [if_pos hempty]
        refine ih (idx + 1) _ _ ?_ k2 hk2 h22
        rw [processRenderDiffBatch_length]
        simp [hlen]
      rw [if_neg hempty]
      match batch with
      | none =>
        dsimp only
        by_cases hdash : firstChar line = '-'
        · rw [if_pos hdash]
          exact ih (idx + 1) _ _ (by simp [hlen]) k2 hk2 h22
        · rw [if_neg hdash]
          exact ih (idx + 1) _ _ (by simp [hlen]) k2 hk2 h22
      | some b =>
        dsimp only
        by_cases hdash : firstChar line = '-'
        · rw [if_pos hdash]
          by_cases hadds : 0 < b.a.length
          · rw [if_pos hadds]
            refine ih (idx + 1) _ _ ?_ k2 hk2 h22
            rw [processRenderDiffBatch_length]
            simp [hlen]
          · rw [if_neg hadds]
            exact ih (idx + 1) _ _ (by simp [hlen]) k2 hk2 h22
        · rw [if_neg hdash]
          by_cases hplus : firstChar line = '+'
          · rw [if_pos hplus]
            exact ih (idx + 1) _ _ (by simp [hlen]) k2 hk2 h22
          · rw [if_neg hplus]
            refine ih (idx + 1) _ _ ?_ k2 hk2 h22
            rw [processRenderDiffBatch_length]
            simp [hlen]

/-- C7 (amended): every line of the prepared sequence is classified by its
first character (`+` Line-added, `-` Line-removed, `@`/backslash/`#`
Comment, anything else Normal); each non-empty classified line is escaped —
every non-header prepared line is either its escape-rendered form
`firstChar + escape(rest)` or a batch-pairing `"-"`/`"+"` RenderLine
rewrite — tag-wrapped, and followed by an appended line terminator, while
an empty line contributes nothing to the output (it is dropped, not
wrapped). -/
theorem c7_line_classification (r : CRender) (lines : List String) :
    renderDiffBody r lines = joinStrs (lines.map (lineMarkup r))
    ∧ lineMarkup r "" = ""
    ∧ (∀ line, 0 < line.length → firstChar line = '+' →
        lineMarkup r line = r.Line.Add.Open ++ line ++ r.Line.Add.Close ++ "\n")
    ∧ (∀ line, 0 < line.length → firstChar line ≠ '+' → firstChar line = '-' →
        lineMarkup r line = r.Line.Rem.Open ++ line ++ r.Line.Rem.Close ++ "\n")
    ∧ (∀ line, 0 < line.length → firstChar line ≠ '+' → firstChar line ≠ '-' →
        (firstChar line = '@' ∨ (firstChar line).toNat = 92 ∨ firstChar line = '#') →
        lineMarkup r line = r.Comment.Open ++ line ++ r.Comment.Close ++ "\n")
    ∧ (∀ line, 0 < line.length → firstChar line ≠ '+' → firstChar line ≠ '-' →
        ¬ (firstChar line = '@' ∨ (firstChar line).toNat = 92 ∨ firstChar line = '#') →
        lineMarkup r line = r.Normal.Open ++ line ++ r.Normal.Close ++ "\n")
    ∧ (∀ (rl : String → String → String × String) (original : List String) (k : Nat),
        2 ≤ k → k < original.length →
        EscOrPair rl ((prepareRenderDiff rl original).getD k "")
          (escRender (original.getD k ""))) := by
  refine ⟨renderDiffBody_eq r lines, rfl, ?_, ?_, ?_, ?_, ?_⟩
  · intro line h1 h2
    unfold lineMarkup
    rw [if_pos h1, if_pos h2, strAppend_assoc, strAppend_assoc]
  · intro line h1 h2 h3
    unfold lineMarkup
    rw [if_pos h1, if_neg h2, if_pos h3, strAppend_assoc, strAppend_assoc]
  · intro line h1 h2 h3 h4
    unfold lineMarkup
    rw [if_pos h1, if_neg h2, if_neg h3, if_pos h4, strAppend_assoc, strAppend_assoc]
  · intro line h1 h2 h3 h4
    unfold lineMarkup
    rw [if_pos h1, if_neg h2, if_neg h3, if_neg h4, strAppend_assoc, strAppend_assoc]
  · intro rl original k h2k hk
    have h := prepareGo_escapes rl original 0 [] none rfl k hk (by omega)
    simpa [prepareRenderDiff] using h

/-- C7 witness: the amended theorem's addition case applied at a concrete
line and configuration. -/
theorem c7_line_classification_w :
    lineMarkup cfgT "+x" = cfgT.Line.Add.Open ++ "+x" ++ cfgT.Line.Add.Close ++ "\n" :=
  (c7_line_classification cfgT []).2.2.1 "+x" (by decide) (by decide)

end GoDiff
